import Mathlib

/-!
Shallow embedding of the microclaw agent orchestration engine
(src/channels/telegram.rs, src/run_control.rs, src/scheduler.rs) and proofs
about its session-reconstruction, agent-loop, compaction, run-registry and
scheduler logic.

Message/content types are declared in the crate module `crate::claude`, which
is not part of the provided sources; their constructors and fields are fully
determined by the exhaustive matches in src/channels/telegram.rs and by the
data model described in the documentation, and are reproduced here.
-/

set_option maxHeartbeats 1000000

namespace Microclaw

/-! ### Definitions: the shallow embedding of the engine -/

/-- Modelled from the spec: a `serde_json::Value` carried in tool-use blocks
(the crate `serde_json` is external). The engine only threads these values
through unchanged, so the payload is abstracted as its serialized text. -/
structure Json where
  raw : String
  deriving DecidableEq, Repr

/-- `crate::claude::ImageSource` (fields as used at telegram.rs:541-546). -/
structure ImageSource where
  source_type : String
  media_type : String
  data : String
  deriving DecidableEq, Repr

/-- `crate::claude::ContentBlock` (variants as used throughout telegram.rs). -/
inductive ContentBlock where
  | Text (text : String)
  | Image (source : ImageSource)
  | ToolUse (id : String) (name : String) (input : Json)
  | ToolResult (tool_use_id : String) (content : String) (is_error : Option Bool)
  deriving DecidableEq, Repr

/-- `crate::claude::MessageContent`. -/
inductive MessageContent where
  | Text (text : String)
  | Blocks (blocks : List ContentBlock)
  deriving DecidableEq, Repr

/-- `crate::claude::Message`. -/
structure Message where
  role : String
  content : MessageContent
  deriving DecidableEq, Repr

/-- `crate::db::StoredMessage` (fields as constructed in telegram.rs:1164-1173). -/
structure StoredMessage where
  id : String
  chat_id : Int
  sender_name : String
  content : String
  is_from_bot : Bool
  timestamp : String
  deriving DecidableEq, Repr

/-- `crate::claude::ResponseContentBlock`: the exhaustive match at
telegram.rs:653-663 has exactly the `Text` and `ToolUse` arms. -/
inductive ResponseContentBlock where
  | Text (text : String)
  | ToolUse (id : String) (name : String) (input : Json)
  deriving DecidableEq, Repr

/-- The LLM response as consumed by the loop: content blocks plus optional
stop reason (telegram.rs:612 reads `response.stop_reason.as_deref()`). -/
structure LlmResponse where
  content : List ResponseContentBlock
  stop_reason : Option String
  deriving DecidableEq, Repr

/-- Result of `ToolRegistry::execute_with_auth` (consumed at telegram.rs:679-712). -/
structure ToolExecResult where
  content : String
  is_error : Bool
  deriving DecidableEq, Repr

/-- `crate::tools::ToolAuthContext` (constructed at telegram.rs:573-576). -/
structure ToolAuthContext where
  caller_chat_id : Int
  control_chat_ids : List Int
  deriving DecidableEq, Repr

/-- telegram.rs:18-23 `sanitize_xml`. -/
def sanitize_xml (s : String) : String :=
  (((s.replace "&" "&amp;").replace "<" "&lt;").replace ">" "&gt;").replace "\"" "&quot;"

/-- telegram.rs:26-32 `format_user_message`. -/
def format_user_message (sender_name : String) (content : String) : String :=
  "<user_message sender=\"" ++ sanitize_xml sender_name ++ "\">" ++
    sanitize_xml content ++ "</user_message>"

/-- Role chosen at telegram.rs:861. -/
def roleOfStored (m : StoredMessage) : String :=
  if m.is_from_bot then "assistant" else "user"

/-- Content chosen at telegram.rs:863-867. -/
def storedContent (m : StoredMessage) : String :=
  if m.is_from_bot then m.content else format_user_message m.sender_name m.content

/-- Loop body of telegram.rs:860-885: merge consecutive same-role entries into
the accumulator's last message (newline-joined), else push a new message.
When the roles match but the last content is not `Text`, the Rust code falls
through the inner `if let` and hits `continue`, dropping the entry. -/
def push_history_message (messages : List Message) (msg : StoredMessage) : List Message :=
  let role := roleOfStored msg
  let content := storedContent msg
  match messages.getLast? with
  | some last =>
    if last.role = role then
      match last.content with
      | MessageContent.Text t =>
        messages.dropLast ++ [⟨last.role, MessageContent.Text (t ++ "\n" ++ content)⟩]
      | _ => messages
    else messages ++ [⟨role, MessageContent.Text content⟩]
  | none => messages ++ [⟨role, MessageContent.Text content⟩]

/-- telegram.rs:888-892: pop the last message if it is an assistant message. -/
def pop_trailing_assistant (messages : List Message) : List Message :=
  match messages.getLast? with
  | some last => if last.role = "assistant" then messages.dropLast else messages
  | none => messages

/-- telegram.rs:895-897: the `while first is assistant remove(0)` loop. -/
def drop_leading_assistant (messages : List Message) : List Message :=
  messages.dropWhile (fun m => m.role == "assistant")

/-- telegram.rs:857-900 `history_to_claude_messages`. -/
def history_to_claude_messages (history : List StoredMessage) : List Message :=
  drop_leading_assistant (pop_trailing_assistant (history.foldl push_history_message []))

/-- The role sequence of a message list. -/
def roles (l : List Message) : List String := l.map (fun m => m.role)

/-- First character index (if any) at which `pat` occurs in `hay`
(models `str::find` for the ASCII patterns used here, where every byte index
returned is also a character boundary). -/
def findSub (pat : List Char) : List Char → Option Nat
  | [] => if pat.isPrefixOf ([] : List Char) then some 0 else none
  | c :: rest =>
    if pat.isPrefixOf (c :: rest) then some 0
    else (findSub pat rest).map (· + 1)

/-- Loop of telegram.rs:910-919: repeatedly find a `<think>` opener; copy the
text before it; skip to just past the matching `</think>` when one exists,
else drop the unterminated tail. `fuel` bounds the recursion (the Rust loop
terminates because `rest` strictly shrinks); it is always called with fuel
larger than the text length, so the fuel-exhausted arm is never reached. -/
def stripThinkingGo : Nat → List Char → List Char → List Char
  | 0, acc, rest => acc ++ rest
  | fuel + 1, acc, rest =>
    match findSub "<think>".data rest with
    | none => acc ++ rest
    | some start =>
      match findSub "</think>".data (rest.drop start) with
      | some e => stripThinkingGo fuel (acc ++ rest.take start) (rest.drop (start + e + 8))
      | none => acc ++ rest.take start

/-- Trailing/leading whitespace removal (`str::trim`). -/
def trimChars (cs : List Char) : List Char :=
  ((cs.dropWhile Char.isWhitespace).reverse.dropWhile Char.isWhitespace).reverse

/-- telegram.rs:907-922 `strip_thinking`. -/
def strip_thinking (text : String) : String :=
  ⟨trimChars (stripThinkingGo (text.data.length + 1) [] text.data)⟩

/-- Block replacement of telegram.rs:1019-1025. -/
def strip_image_block (b : ContentBlock) : ContentBlock :=
  match b with
  | ContentBlock.Image _ => ContentBlock.Text "[image was sent]"
  | _ => b

/-- telegram.rs:1016-1028 `strip_images_for_session`: the in-place loop over
all messages and, for `Blocks` contents, over all blocks. -/
def strip_images_for_session (messages : List Message) : List Message :=
  messages.map fun msg =>
    match msg.content with
    | MessageContent.Blocks blocks => ⟨msg.role, MessageContent.Blocks (blocks.map strip_image_block)⟩
    | _ => msg

/-- telegram.rs:44-67 `AgentEvent`. `duration_ms` (wall-clock time) and the
streaming `TextDelta` forwarding are real-time behaviour outside the shallow
embedding and are omitted from the modelled payloads. -/
inductive AgentEvent where
  | Iteration (iteration : Nat)
  | ToolStart (name : String)
  | ToolResult (name : String) (is_error : Bool) (preview : String)
      (status_code : Option Int) (bytes : Nat) (error_type : Option String)
  | FinalResponse (text : String)
  deriving DecidableEq, Repr

/-- UTF-8 byte length of a character sequence (Rust `str::len`). -/
def byteLen (cs : List Char) : Nat := (cs.map Char.utf8Size).sum

/-- Text concatenation of telegram.rs:615-623 (and 725-733): keep the text
blocks and join with the empty separator. -/
def concatText (blocks : List ResponseContentBlock) : String :=
  String.join (blocks.filterMap fun b => match b with
    | ResponseContentBlock.Text t => some t
    | _ => none)

/-- The ToolResult event preview of telegram.rs:684-689: clip to 160
characters with an ellipsis. -/
def toolPreview (content : String) : String :=
  if content.data.length > 160 then String.mk (content.data.take 160) ++ "..." else content

/-- The per-tool-call loop of telegram.rs:672-714: execute every `ToolUse`
block sequentially in response order, emit `ToolStart`/`ToolResult` events
when an event sink is attached, and collect one `ToolResult` content block
per call carrying the originating tool-use id. Returns (collected ToolResult
blocks, executed (name, input) calls in execution order, emitted events). -/
def execTools (exec : ToolAuthContext → String → Json → ToolExecResult)
    (auth : ToolAuthContext) (eventsAttached : Bool) :
    List ResponseContentBlock → List ContentBlock × List (String × Json) × List AgentEvent
  | [] => ([], [], [])
  | ResponseContentBlock.Text _ :: rest => execTools exec auth eventsAttached rest
  | ResponseContentBlock.ToolUse id name input :: rest =>
    let result := exec auth name input
    let evts : List AgentEvent :=
      if eventsAttached then
        [AgentEvent.ToolStart name,
         AgentEvent.ToolResult name result.is_error (toolPreview result.content)
           (some (if result.is_error then 1 else 0)) (byteLen result.content.data)
           (if result.is_error then some "tool_error" else none)]
      else []
    let rec_result := execTools exec auth eventsAttached rest
    (ContentBlock.ToolResult id result.content (if result.is_error then some true else none)
        :: rec_result.1,
      (name, input) :: rec_result.2.1,
      evts ++ rec_result.2.2)

/-- telegram.rs:651-664: convert response blocks to owned content blocks for
the assistant message of a tool-use round. -/
def toAssistantBlock (b : ResponseContentBlock) : ContentBlock :=
  match b with
  | ResponseContentBlock.Text t => ContentBlock.Text t
  | ResponseContentBlock.ToolUse id name input => ContentBlock.ToolUse id name input

/-- telegram.rs:759: the fixed text returned when the iteration budget is
exhausted. -/
def max_iterations_text : String :=
  "I reached the maximum number of tool iterations. Here\x27s what I was working on — please try breaking your request into smaller steps."

/-- Outcome of one turn of the agent loop: the returned text, the message
list written to the session store by `save_session` at the terminal
transition, the tool calls executed (in execution order), and the events sent
to the event sink. -/
structure LoopResult where
  text : String
  persisted : List Message
  trace : List (String × Json)
  events : List AgentEvent
  deriving DecidableEq, Repr

/-- The agentic tool-use loop of telegram.rs:579-775. The LLM client is an
oracle list of responses, one per iteration (`none` result models the `?`
propagation of an LLM transport error when the oracle is exhausted);
`show_thinking` is `state.config.show_thinking`; `fuel` is the remaining part
of `state.config.max_tool_iterations` and `iteration` the 0-based index of
the current iteration. -/
def agentLoopGo (show_thinking : Bool) (exec : ToolAuthContext → String → Json → ToolExecResult)
    (auth : ToolAuthContext) (eventsAttached : Bool) :
    List LlmResponse → List Message → Nat → Nat → Option LoopResult
  | _, messages, _, 0 =>
    -- telegram.rs:756-774: max iterations reached
    let messages := strip_images_for_session
      (messages ++ [⟨"assistant", MessageContent.Text max_iterations_text⟩])
    some { text := max_iterations_text, persisted := messages, trace := [],
           events := if eventsAttached then [AgentEvent.FinalResponse max_iterations_text] else [] }
  | [], _, _, _ + 1 => none
  | response :: rest, messages, iteration, fuel + 1 =>
    let iterEv : List AgentEvent :=
      if eventsAttached then [AgentEvent.Iteration (iteration + 1)] else []
    let stop_reason := response.stop_reason.getD "end_turn"
    if stop_reason = "end_turn" ∨ stop_reason = "max_tokens" then
      -- telegram.rs:614-648
      let text := concatText response.content
      let messages := strip_images_for_session
        (messages ++ [⟨"assistant", MessageContent.Text text⟩])
      let display_text := if show_thinking then text else strip_thinking text
      some { text := display_text, persisted := messages, trace := [],
             events := iterEv ++ (if eventsAttached then [AgentEvent.FinalResponse display_text] else []) }
    else if stop_reason = "tool_use" then
      -- telegram.rs:650-722
      let assistant_content := response.content.map toAssistantBlock
      let executed := execTools exec auth eventsAttached response.content
      let messages := messages ++
        [⟨"assistant", MessageContent.Blocks assistant_content⟩,
         ⟨"user", MessageContent.Blocks executed.1⟩]
      (agentLoopGo show_thinking exec auth eventsAttached rest messages (iteration + 1) fuel).map
        fun r => { r with trace := executed.2.1 ++ r.trace, events := iterEv ++ executed.2.2 ++ r.events }
    else
      -- telegram.rs:724-753: unknown stop reason
      let text := concatText response.content
      let messages := strip_images_for_session
        (messages ++ [⟨"assistant", MessageContent.Text text⟩])
      if text = "" then
        some { text := "(no response)", persisted := messages, trace := [], events := iterEv }
      else
        some { text := text, persisted := messages, trace := [],
               events := iterEv ++ (if eventsAttached then [AgentEvent.FinalResponse text] else []) }

/-- Composite key of the active-run map (run_control.rs:7). -/
abbrev RunKey := String × Int

/-- run_control.rs:9-15 `ActiveRun`. The shared `cancelled: Arc<AtomicBool>`
and `notify: Arc<Notify>` handles are modelled by identity: the per-run-id
flag store lives in `RunControlState.cancelled_flags`. -/
structure ActiveRun where
  run_id : Nat
  source_message_id : Option String
  deriving DecidableEq, Repr

/-- The process-wide state of run_control.rs: `NEXT_RUN_ID`, `ACTIVE_RUNS`
(a map keyed by `RunKey`, absent key = empty list) and
`ABORTED_SOURCE_MESSAGE_IDS` (a per-key set, modelled as a list whose
membership is the set membership). `cancelled_flags` gives the current value
of each run id's shared cancelled flag. -/
structure RunControlState where
  next_run_id : Nat
  active_runs : RunKey → List ActiveRun
  cancelled_flags : Nat → Bool
  aborted_ids : RunKey → List String

/-- run_control.rs:25-44 `register_run`: allocate the next id, create the run
with a fresh (false) cancelled flag, push it under the key. Returns the new
run id together with the updated state. -/
def register_run (s : RunControlState) (channel : String) (chat_id : Int)
    (source_message_id : Option String) : Nat × RunControlState :=
  let run_id := s.next_run_id
  (run_id,
    { next_run_id := run_id + 1
      active_runs := fun k =>
        if k = (channel, chat_id) then s.active_runs k ++ [⟨run_id, source_message_id⟩]
        else s.active_runs k
      cancelled_flags := fun i => if i = run_id then false else s.cancelled_flags i
      aborted_ids := s.aborted_ids })

/-- run_control.rs:46-55 `unregister_run`. -/
def unregister_run (s : RunControlState) (channel : String) (chat_id : Int)
    (run_id : Nat) : RunControlState :=
  { s with active_runs := fun k =>
      if k = (channel, chat_id) then (s.active_runs k).filter (fun r => r.run_id ≠ run_id)
      else s.active_runs k }

/-- run_control.rs:57-80 `abort_runs`: remove all runs under the key, set
every removed run's cancelled flag, record each present `source_message_id`
into the per-key aborted set, and return how many runs were removed. -/
def abort_runs (s : RunControlState) (channel : String) (chat_id : Int) :
    Nat × RunControlState :=
  let key : RunKey := (channel, chat_id)
  let runs := s.active_runs key
  (runs.length,
    { s with
      active_runs := fun k => if k = key then [] else s.active_runs k
      cancelled_flags := fun i => if runs.any (fun r => r.run_id = i) then true else s.cancelled_flags i
      aborted_ids := fun k =>
        if k = key then s.aborted_ids k ++ runs.filterMap (fun r => r.source_message_id)
        else s.aborted_ids k })

/-- run_control.rs:82-84 `is_cancelled`. -/
def is_cancelled (s : RunControlState) (run_id : Nat) : Bool :=
  s.cancelled_flags run_id

/-- run_control.rs:86-93 `is_aborted_source_message`. -/
def is_aborted_source_message (s : RunControlState) (channel : String) (chat_id : Int)
    (message_id : String) : Bool :=
  (s.aborted_ids (channel, chat_id)).contains message_id

/-- scheduler.rs `ScheduledTask` fields as consumed at scheduler.rs:36-148. -/
structure ScheduledTask where
  id : Int
  chat_id : Int
  prompt : String
  schedule_type : String
  schedule_value : String
  status : String
  deriving DecidableEq, Repr

/-- Modelled from the spec: the `cron` crate's `Schedule::from_str` parser and
`upcoming(tz).next()` iterator, the `chrono_tz` timezone parser and its UTC
constant, and RFC 3339 formatting are external dependencies not present in the
source; they are abstracted as oracle functions over opaque types. A parse
failure (`Err`) is `none`. -/
structure CronOracle (Cron Tz DateTime : Type) where
  parse : String → Option Cron
  upcomingNext : Cron → Tz → Option DateTime
  to_rfc3339 : DateTime → String
  parseTz : String → Option Tz
  utc : Tz

/-- scheduler.rs:126-138: after a task executes, the next run time is the next
upcoming occurrence of the cron expression in the configured timezone
(falling back to UTC when the configured timezone fails to parse); an invalid
cron expression, or any non-cron (`once`) schedule type, leaves it `none`. -/
def compute_next_run {Cron Tz DateTime : Type} (o : CronOracle Cron Tz DateTime)
    (timezone_cfg : String) (task : ScheduledTask) : Option String :=
  let tz := (o.parseTz timezone_cfg).getD o.utc
  if task.schedule_type = "cron" then
    match o.parse task.schedule_value with
    | some schedule => (o.upcomingNext schedule tz).map o.to_rfc3339
    | none => none
  else none

/-- The `ToolUse` blocks of a response, in response order. -/
def toolUses (blocks : List ResponseContentBlock) : List (String × String × Json) :=
  blocks.filterMap fun b => match b with
    | ResponseContentBlock.ToolUse id name input => some (id, name, input)
    | _ => none

/-- Shared fixtures for concrete loop evaluations. -/
def execOk : ToolAuthContext → String → Json → ToolExecResult := fun _ _ _ => ⟨"ok", false⟩

def auth0 : ToolAuthContext := ⟨5, []⟩

def toolResp : LlmResponse :=
  ⟨[ResponseContentBlock.ToolUse "tu1" "echo" ⟨"null"⟩], some "tool_use"⟩

/-- Is a content block an Image block? -/
def blockIsImage (b : ContentBlock) : Bool :=
  match b with
  | ContentBlock.Image _ => true
  | _ => false

/-- No message in the list carries an Image content block. -/
def noImagesB (messages : List Message) : Bool :=
  messages.all fun m =>
    match m.content with
    | MessageContent.Text _ => true
    | MessageContent.Blocks bs => bs.all (fun b => !(blockIsImage b))

/-- A message list holding one Image block, for concrete loop evaluations. -/
def msgs_img : List Message :=
  [⟨"user", MessageContent.Blocks [ContentBlock.Image ⟨"base64", "image/png", "QUJD"⟩]⟩]

/-- telegram.rs:501-517: the catch-up merge for one stored message newer than
the session's updated_at: newline-append into the last message when it is a
user message with Text content (the inner `if let` falls through for Blocks
content), else push a new user message. -/
def catch_up_step (session_messages : List Message) (stored : StoredMessage) : List Message :=
  let content := format_user_message stored.sender_name stored.content
  match session_messages.getLast? with
  | some last =>
    if last.role = "user" then
      match last.content with
      | MessageContent.Text t =>
        session_messages.dropLast ++ [⟨last.role, MessageContent.Text (t ++ "\n" ++ content)⟩]
      | _ => session_messages ++ [⟨"user", MessageContent.Text content⟩]
    else session_messages ++ [⟨"user", MessageContent.Text content⟩]
  | none => session_messages ++ [⟨"user", MessageContent.Text content⟩]

/-- telegram.rs:501-517: the catch-up loop over all newer stored messages. -/
def catch_up_new_messages (session_messages : List Message)
    (new_msgs : List StoredMessage) : List Message :=
  new_msgs.foldl catch_up_step session_messages

/-- telegram.rs:526-531: append the scheduler override prompt as a tagged
user message. -/
def apply_override (messages : List Message) (override_prompt : Option String) : List Message :=
  match override_prompt with
  | some prompt => messages ++ [⟨"user", MessageContent.Text ("[scheduler]: " ++ prompt)⟩]
  | none => messages

/-- telegram.rs:534-554: convert the last user message to a blocks-based
message carrying the image. -/
def apply_image (messages : List Message) (image_data : Option (String × String)) : List Message :=
  match image_data with
  | some (base64_data, media_type) =>
    match messages.getLast? with
    | some last_msg =>
      if last_msg.role = "user" then
        let text_content :=
          match last_msg.content with
          | MessageContent.Text t => t
          | _ => ""
        let blocks := [ContentBlock.Image ⟨"base64", media_type, base64_data⟩] ++
          (if text_content = "" then [] else [ContentBlock.Text text_content])
        messages.dropLast ++ [⟨last_msg.role, MessageContent.Blocks blocks⟩]
      else messages
    | none => messages
  | none => messages

/-- telegram.rs:485-559 (`resume_or_build` in the spec's terms): resume from
the stored session when present and non-empty (with catch-up merge of newer
stored messages), else rebuild from history; then the override-prompt and
image steps. `session` is the deserialized session (`none` = absent; a
`serde_json` parse failure yields the empty list via `unwrap_or_default`,
which falls back to history exactly like an empty session). -/
def resume_or_build (session : Option (List Message)) (new_msgs : List StoredMessage)
    (history : List StoredMessage) (override_prompt : Option String)
    (image_data : Option (String × String)) : List Message :=
  let messages :=
    match session with
    | some session_messages =>
      if session_messages.isEmpty then history_to_claude_messages history
      else catch_up_new_messages session_messages new_msgs
    | none => history_to_claude_messages history
  apply_image (apply_override messages override_prompt) image_data

/-- A stored bot message (for concrete evaluations). -/
def bot_stored : StoredMessage := ⟨"1", 100, "bot", "hello there", true, "2024-01-01T00:00:01Z"⟩

/-- A stored user message (for concrete evaluations). -/
def alice_stored : StoredMessage := ⟨"2", 100, "alice", "hi", false, "2024-01-01T00:00:02Z"⟩

/-- Number of adjacent pairs of user roles in a role sequence. -/
def adjacent_user_pairs : List String → Nat
  | a :: b :: rest => (if a = "user" ∧ b = "user" then 1 else 0) + adjacent_user_pairs (b :: rest)
  | _ => 0

/-- Number of adjacent pairs of user-role messages. -/
def adjUserPairs (l : List Message) : Nat := adjacent_user_pairs (roles l)

/-- The last message exists, has role user and Text content. -/
def lastIsUserText (l : List Message) : Bool :=
  match l.getLast? with
  | some last => last.role == "user" &&
      (match last.content with
       | MessageContent.Text _ => true
       | _ => false)
  | none => false

/-- The last message exists, has role user and Blocks content. -/
def lastIsUserBlocks (l : List Message) : Bool :=
  match l.getLast? with
  | some last => last.role == "user" &&
      (match last.content with
       | MessageContent.Blocks _ => true
       | _ => false)
  | none => false

/-- telegram.rs:993-999: the largest prefix whose UTF-8 byte length is at
most `n` (models the `while !content.is_char_boundary(end) end -= 1` loop
started at byte 200 followed by slicing). -/
def takeBytesFloor : List Char → Nat → List Char
  | [], _ => []
  | c :: cs, n => if c.utf8Size ≤ n then c :: takeBytesFloor cs (n - c.utf8Size) else []

/-- telegram.rs:973-1013 `message_to_text`. -/
def message_to_text (msg : Message) : String :=
  match msg.content with
  | MessageContent.Text t => t
  | MessageContent.Blocks blocks =>
    String.intercalate "\n" (blocks.map fun block =>
      match block with
      | ContentBlock.Text text => text
      | ContentBlock.ToolUse _ name input => "[tool_use: " ++ name ++ "(" ++ input.raw ++ ")]"
      | ContentBlock.ToolResult _ content is_error =>
        let prfx := if is_error = some true then "[tool_error]: " else "[tool_result]: "
        let truncated :=
          if byteLen content.data > 200 then String.mk (takeBytesFloor content.data 200) ++ "..."
          else content
        prfx ++ truncated
      | ContentBlock.Image _ => "[image]")

/-- Rust `String::truncate(new_len)`: a no-op when `new_len` is at least the
byte length, truncation when `new_len` lies on a character boundary, and a
PANIC otherwise; the panic is modelled as `none`. -/
def rustTruncate : List Char → Nat → Option (List Char)
  | [], _ => some []
  | c :: cs, n =>
    if n = 0 then some []
    else if c.utf8Size ≤ n then (rustTruncate cs (n - c.utf8Size)).map (c :: ·)
    else none

/-- telegram.rs:1079-1084: render the old messages as a flat transcript,
one "[role]: text" paragraph per message. -/
def render_transcript (old_messages : List Message) : List Char :=
  old_messages.foldl
    (fun acc msg => acc ++ ("[".data ++ msg.role.data ++ "]: ".data
      ++ (message_to_text msg).data ++ "\n\n".data)) []

/-- telegram.rs:1086-1090: hard-truncate the transcript at 20,000 bytes with
`String::truncate` and append the truncation marker. `none` models the
panic of `String::truncate` on a non-boundary index. -/
def truncate_transcript (summary_input : List Char) : Option (List Char) :=
  if byteLen summary_input > 20000 then
    (rustTruncate summary_input 20000).map (· ++ "\n... (truncated)".data)
  else some summary_input

/-- telegram.rs:1064-1157 `compact_messages`. The LLM summarization round
trip is an oracle: `summarize input` is the concatenated text of its
response, `none` models a failed call (falling back to the recent tail
unchanged). A `none` overall result models the `String::truncate` panic. -/
def compact_messages (summarize : String → Option String) (messages : List Message)
    (keep_recent : Nat) : Option (List Message) :=
  if messages.length ≤ keep_recent then some messages
  else
    match truncate_transcript
        (render_transcript (messages.take (messages.length - keep_recent))) with
    | none => none
    | some summary_input =>
      match summarize
          ("Summarize the following conversation concisely, preserving key facts, decisions, tool results, and context needed to continue the conversation. Be brief but thorough."
            ++ "\n\n---\n\n" ++ String.mk summary_input) with
      | none => some (messages.drop (messages.length - keep_recent))
      | some summary =>
        let compacted : List Message :=
          [⟨"user", MessageContent.Text ("[Conversation Summary]\n" ++ summary)⟩,
           ⟨"assistant", MessageContent.Text
             "Understood, I have the conversation context. How can I help?"⟩]
        let compacted := (messages.drop (messages.length - keep_recent)).foldl
          (fun compacted msg =>
            match compacted.getLast? with
            | some last =>
              if last.role = msg.role then
                compacted.dropLast ++ [⟨last.role, MessageContent.Text
                  (message_to_text last ++ "\n" ++ message_to_text msg)⟩]
              else compacted ++ [msg]
            | none => compacted ++ [msg])
          compacted
        some (pop_trailing_assistant compacted)

/-- A message whose rendered transcript paragraph places a multi-byte
character across byte 20,000: "[user]: " (8 bytes) + 19,990 bytes of "a" +
a 3-byte euro sign. -/
def big_text : String := ⟨List.replicate 19990 'a' ++ ['€']⟩

def big_msg : Message := ⟨"user", MessageContent.Text big_text⟩

def tail_msg : Message := ⟨"user", MessageContent.Text "x"⟩

/-! ### Theorems -/

lemma roles_append (l₁ l₂ : List Message) : roles (l₁ ++ l₂) = roles l₁ ++ roles l₂ := by
  simp [roles]

lemma roles_dropLast_append_last {l : List Message} {last : Message}
    (h : l.getLast? = some last) (m : Message) (hrole : m.role = last.role) :
    roles (l.dropLast ++ [m]) = roles l := by
  conv_rhs => rw [← List.dropLast_append_getLast? last h]
  simp [roles_append, roles, hrole]

lemma getLast?_roles (l : List Message) : (roles l).getLast? = l.getLast?.map (fun m => m.role) := by
  simp [roles]

/-- The merge loop keeps adjacent roles distinct. -/
lemma chain_push_history (acc : List Message) (m : StoredMessage)
    (h : (roles acc).Chain' (· ≠ ·)) :
    (roles (push_history_message acc m)).Chain' (· ≠ ·) := by
  unfold push_history_message
  cases hacc : acc.getLast? with
  | none =>
    have hnil : acc = [] := List.getLast?_eq_none_iff.mp hacc
    subst hnil
    simp [roles]
  | some last =>
    dsimp only
    by_cases hrole : last.role = roleOfStored m
    · rw [if_pos hrole]
      cases hc : last.content with
      | Text t =>
        dsimp only
        rw [roles_dropLast_append_last hacc
          ⟨last.role, MessageContent.Text (t ++ "\n" ++ storedContent m)⟩ rfl]
        exact h
      | Blocks bs => exact h
    · rw [if_neg hrole]
      rw [roles_append]
      refine List.Chain'.append h ?_ ?_
      · simp [roles]
      · intro x hx y hy
        rw [getLast?_roles, hacc] at hx
        simp only [roles, List.map_cons, List.map_nil, List.head?_cons] at hy
        simp only [Option.mem_def, Option.map_some', Option.some.injEq] at hx hy
        subst hx; subst hy
        exact hrole

lemma chain_fold_history (history : List StoredMessage) (acc : List Message)
    (h : (roles acc).Chain' (· ≠ ·)) :
    (roles (history.foldl push_history_message acc)).Chain' (· ≠ ·) := by
  induction history generalizing acc with
  | nil => exact h
  | cons m rest ih => exact ih _ (chain_push_history acc m h)

lemma pop_trailing_last (l : List Message) (h : (roles l).Chain' (· ≠ ·)) :
    ((pop_trailing_assistant l).getLast?.all (fun m => m.role != "assistant")) = true := by
  unfold pop_trailing_assistant
  cases hl : l.getLast? with
  | none => simp [hl]
  | some last =>
    by_cases hrole : last.role = "assistant"
    · simp only [hl, hrole, if_true]
      cases hd : l.dropLast.getLast? with
      | none => simp
      | some p =>
        have hrep : roles (l.dropLast) ++ ["assistant"] = roles l := by
          have := roles_dropLast_append_last hl (⟨"assistant", last.content⟩ : Message) (by simp [hrole])
          simpa [roles_append, roles] using this
        rw [← hrep] at h
        have hcond := (List.chain'_append.mp h).2.2
        have hp : (roles l.dropLast).getLast? = some p.role := by
          rw [getLast?_roles, hd]; rfl
        have := hcond p.role (by rw [hp]; exact rfl) "assistant" rfl
        simp [hd, this]
    · simp [hl, hrole]

lemma head_dropWhile_all {α : Type} (p : α → Bool) (l : List α) :
    ((l.dropWhile p).head?.all (fun a => !p a)) = true := by
  induction l with
  | nil => simp [List.dropWhile]
  | cons a t ih =>
    by_cases hpa : p a = true
    · simpa [List.dropWhile, hpa] using ih
    · simp [List.dropWhile, hpa]

lemma getLast?_dropWhile {α : Type} (p : α → Bool) (l : List α) :
    l.dropWhile p = [] ∨ (l.dropWhile p).getLast? = l.getLast? := by
  induction l with
  | nil => left; simp
  | cons a t ih =>
    by_cases hpa : p a = true
    · rw [List.dropWhile_cons_of_pos hpa]
      rcases ih with h | h
      · left; exact h
      · cases t with
        | nil => left; simp
        | cons b t' =>
          right
          rw [h]
          simp
    · right
      rw [List.dropWhile_cons_of_neg hpa]

/-- C1: for every chat history, `history_to_claude_messages` returns a message
list that never begins with an assistant-role message and never ends with an
assistant-role message. -/
theorem history_reconstruction_no_assistant_ends (history : List StoredMessage) :
    ((history_to_claude_messages history).head?.all (fun m => m.role != "assistant")) = true ∧
    ((history_to_claude_messages history).getLast?.all (fun m => m.role != "assistant")) = true := by
  have hchain : (roles (history.foldl push_history_message [])).Chain' (· ≠ ·) :=
    chain_fold_history history [] (by simp [roles])
  have hpop := pop_trailing_last _ hchain
  constructor
  · exact head_dropWhile_all _ _
  · unfold history_to_claude_messages drop_leading_assistant
    rcases getLast?_dropWhile (fun m => m.role == "assistant")
      (pop_trailing_assistant (history.foldl push_history_message [])) with h | h
    · simp [h]
    · rw [h]; exact hpop

/-- C9: `abort_runs` removes every run registered under the key, sets each
such run's cancelled flag, records each run's present source message id in
the aborted set (so `was_aborted` returns true for it), returns the number of
runs removed, and registering one run into a chat with no active runs and
then aborting returns exactly 1. -/
theorem abort_runs_spec (s : RunControlState) (channel : String) (chat_id : Int)
    (source_message_id : Option String) :
    (abort_runs s channel chat_id).1 = (s.active_runs (channel, chat_id)).length ∧
    ((abort_runs s channel chat_id).2.active_runs (channel, chat_id) = []) ∧
    ((s.active_runs (channel, chat_id)).all
      (fun r => is_cancelled (abort_runs s channel chat_id).2 r.run_id)) = true ∧
    ((s.active_runs (channel, chat_id)).all
      (fun r => match r.source_message_id with
        | some mid => is_aborted_source_message (abort_runs s channel chat_id).2 channel chat_id mid
        | none => true)) = true ∧
    (s.active_runs (channel, chat_id) = [] →
      (abort_runs (register_run s channel chat_id source_message_id).2 channel chat_id).1 = 1) := by
  refine ⟨rfl, by simp [abort_runs], ?_, ?_, ?_⟩
  · rw [List.all_eq_true]
    intro r hr
    simp only [abort_runs, is_cancelled]
    rw [if_pos]
    rw [List.any_eq_true]
    exact ⟨r, hr, by simp⟩
  · rw [List.all_eq_true]
    intro r hr
    cases hmid : r.source_message_id with
    | none => rfl
    | some mid =>
      simp only [abort_runs, is_aborted_source_message, if_true]
      simp only [List.contains, List.elem_eq_mem, decide_eq_true_eq]
      exact List.mem_append_right _ (List.mem_filterMap.mpr ⟨r, hr, hmid⟩)
  · intro hempty
    simp [abort_runs, register_run, hempty]

/-- Witness for C9: registering one run into a chat with no active runs and
aborting returns exactly 1. -/
theorem abort_runs_spec_witness :
    (abort_runs (register_run ⟨1, fun _ => [], fun _ => false, fun _ => []⟩ "telegram" 5
        (some "m1")).2 "telegram" 5).1 = 1 :=
  (abort_runs_spec ⟨1, fun _ => [], fun _ => false, fun _ => []⟩ "telegram" 5
    (some "m1")).2.2.2.2 rfl

/-- C10: after executing a due task the scheduler leaves the next-run time
unset for non-cron (`once`) tasks and for cron tasks whose expression fails
to parse (instead of failing the pass, which is modelled by
`compute_next_run` being total), and for a cron task that parses it takes the
next upcoming occurrence in the configured timezone. -/
theorem scheduler_next_run_spec {Cron Tz DateTime : Type}
    (o : CronOracle Cron Tz DateTime) (timezone_cfg : String) (task : ScheduledTask) :
    (task.schedule_type ≠ "cron" → compute_next_run o timezone_cfg task = none) ∧
    (o.parse task.schedule_value = none → compute_next_run o timezone_cfg task = none) ∧
    (∀ c, task.schedule_type = "cron" → o.parse task.schedule_value = some c →
      compute_next_run o timezone_cfg task =
        (o.upcomingNext c ((o.parseTz timezone_cfg).getD o.utc)).map o.to_rfc3339) := by
  refine ⟨?_, ?_, ?_⟩
  · intro h
    simp [compute_next_run, h]
  · intro h
    by_cases ht : task.schedule_type = "cron" <;> simp [compute_next_run, h, ht]
  · intro c ht hp
    simp [compute_next_run, ht, hp]

/-- Witness for C10 at a concrete oracle over `Unit` types: an unparseable
cron expression yields `none`, and a parseable one yields the upcoming
occurrence. -/
theorem scheduler_next_run_spec_witness :
    compute_next_run
      (⟨fun s => if s = "bad" then none else some (), fun _ _ => some (), fun _ => "2026-01-01T00:00:00Z",
        fun _ => none, ()⟩ : CronOracle Unit Unit Unit) "UTC"
      ⟨1, 5, "p", "cron", "bad", "active"⟩ = none := by
  exact (scheduler_next_run_spec _ "UTC" _).2.1 (by decide)

lemma execTools_aligned (exec : ToolAuthContext → String → Json → ToolExecResult)
    (auth : ToolAuthContext) (ev : Bool) (blocks : List ResponseContentBlock) :
    (execTools exec auth ev blocks).1 =
      (toolUses blocks).map (fun t =>
        ContentBlock.ToolResult t.1 ((exec auth t.2.1 t.2.2).content)
          (if (exec auth t.2.1 t.2.2).is_error then some true else none)) ∧
    (execTools exec auth ev blocks).2.1 = (toolUses blocks).map (fun t => (t.2.1, t.2.2)) := by
  induction blocks with
  | nil => exact ⟨rfl, rfl⟩
  | cons b rest ih =>
    cases b with
    | Text t => simpa [execTools, toolUses] using ih
    | ToolUse id name input =>
      refine ⟨?_, ?_⟩ <;> simp [execTools, toolUses, ih.1, ih.2]

/-- C2: in an iteration whose response has stop_reason `tool_use`, the tool
calls are executed sequentially in the order the ToolUse blocks appear (the
execution trace lists them in that order), and exactly one user message is
appended containing one ToolResult block per ToolUse block, in the same
order, each carrying the corresponding block's tool_use_id. -/
theorem tool_use_round_order (show_thinking : Bool)
    (exec : ToolAuthContext → String → Json → ToolExecResult) (auth : ToolAuthContext)
    (ev : Bool) (response : LlmResponse) (rest : List LlmResponse)
    (messages : List Message) (iteration fuel : Nat)
    (h : response.stop_reason = some "tool_use") :
    (execTools exec auth ev response.content).2.1
      = (toolUses response.content).map (fun t => (t.2.1, t.2.2)) ∧
    (execTools exec auth ev response.content).1
      = (toolUses response.content).map (fun t =>
          ContentBlock.ToolResult t.1 ((exec auth t.2.1 t.2.2).content)
            (if (exec auth t.2.1 t.2.2).is_error then some true else none)) ∧
    agentLoopGo show_thinking exec auth ev (response :: rest) messages iteration (fuel + 1) =
      (agentLoopGo show_thinking exec auth ev rest
          (messages ++
            [⟨"assistant", MessageContent.Blocks (response.content.map toAssistantBlock)⟩,
             ⟨"user", MessageContent.Blocks (execTools exec auth ev response.content).1⟩])
          (iteration + 1) fuel).map
        (fun r => { r with
            trace := (execTools exec auth ev response.content).2.1 ++ r.trace,
            events := (if ev then [AgentEvent.Iteration (iteration + 1)] else [])
              ++ (execTools exec auth ev response.content).2.2 ++ r.events }) := by
  refine ⟨(execTools_aligned exec auth ev response.content).2,
          (execTools_aligned exec auth ev response.content).1, ?_⟩
  simp only [agentLoopGo, h]
  rw [if_neg (by decide), if_pos (by decide)]

/-- Witness for C2: the tool-use round at a concrete single-ToolUse response. -/
theorem tool_use_round_order_witness :
    (execTools execOk auth0 false toolResp.content).2.1
      = (toolUses toolResp.content).map (fun t => (t.2.1, t.2.2)) ∧
    (execTools execOk auth0 false toolResp.content).1
      = (toolUses toolResp.content).map (fun t =>
          ContentBlock.ToolResult t.1 ((execOk auth0 t.2.1 t.2.2).content)
            (if (execOk auth0 t.2.1 t.2.2).is_error then some true else none)) ∧
    agentLoopGo false execOk auth0 false (toolResp :: []) [] 0 (0 + 1) =
      (agentLoopGo false execOk auth0 false []
          ([] ++
            [⟨"assistant", MessageContent.Blocks (toolResp.content.map toAssistantBlock)⟩,
             ⟨"user", MessageContent.Blocks (execTools execOk auth0 false toolResp.content).1⟩])
          (0 + 1) 0).map
        (fun r => { r with
            trace := (execTools execOk auth0 false toolResp.content).2.1 ++ r.trace,
            events := (if false then [AgentEvent.Iteration (0 + 1)] else [])
              ++ (execTools execOk auth0 false toolResp.content).2.2 ++ r.events }) :=
  tool_use_round_order false execOk auth0 false toolResp [] [] 0 0 rfl

/-- Unfolding of the fuel-exhausted (max-iterations) arm of the loop. -/
lemma agentLoopGo_zero (show_thinking : Bool)
    (exec : ToolAuthContext → String → Json → ToolExecResult) (auth : ToolAuthContext)
    (ev : Bool) (responses : List LlmResponse) (messages : List Message) (iteration : Nat) :
    agentLoopGo show_thinking exec auth ev responses messages iteration 0 =
      some { text := max_iterations_text,
             persisted := strip_images_for_session
               (messages ++ [⟨"assistant", MessageContent.Text max_iterations_text⟩]),
             trace := [],
             events := if ev then [AgentEvent.FinalResponse max_iterations_text] else [] } := by
  cases responses <;> rfl

lemma strip_images_getLast_text (messages : List Message) (role t : String) :
    (strip_images_for_session (messages ++ [⟨role, MessageContent.Text t⟩])).getLast?
      = some ⟨role, MessageContent.Text t⟩ := by
  unfold strip_images_for_session
  rw [List.getLast?_map, List.getLast?_concat]
  rfl

/-- C3: if every iteration of its budget ends in stop_reason `tool_use`, the
agent loop returns the fixed max-iterations text and the message list it
persists ends with that assistant-role text message. -/
theorem max_iterations_result (show_thinking : Bool)
    (exec : ToolAuthContext → String → Json → ToolExecResult) (auth : ToolAuthContext)
    (ev : Bool) (responses : List LlmResponse) (messages : List Message)
    (iteration : Nat) (n : Nat) (hlen : n ≤ responses.length)
    (hall : ∀ r ∈ responses.take n, r.stop_reason = some "tool_use") :
    (agentLoopGo show_thinking exec auth ev responses messages iteration n).map (fun r => r.text)
      = some max_iterations_text ∧
    (agentLoopGo show_thinking exec auth ev responses messages iteration n).map
        (fun r => r.persisted.getLast?)
      = some (some ⟨"assistant", MessageContent.Text max_iterations_text⟩) := by
  induction n generalizing responses messages iteration with
  | zero =>
    rw [agentLoopGo_zero]
    refine ⟨rfl, ?_⟩
    simp [strip_images_getLast_text]
  | succ n ih =>
    cases responses with
    | nil => simp at hlen
    | cons r rest =>
      have hr : r.stop_reason = some "tool_use" := hall r (by simp [List.take])
      have hrest : ∀ x ∈ rest.take n, x.stop_reason = some "tool_use" := by
        intro x hx
        exact hall x (by simp [List.take, hx])
      have hlen' : n ≤ rest.length := by simpa using hlen
      simp only [agentLoopGo, hr]
      rw [if_neg (by decide), if_pos (by decide)]
      rw [Option.map_map, Option.map_map]
      exact ih rest
        (messages ++
          [⟨"assistant", MessageContent.Blocks (r.content.map toAssistantBlock)⟩,
           ⟨"user", MessageContent.Blocks (execTools exec auth ev r.content).1⟩])
        (iteration + 1) hlen' hrest

/-- Witness for C3: iteration budget 1 with a single tool-use response. -/
theorem max_iterations_result_witness :
    (agentLoopGo false execOk auth0 false [toolResp] [] 0 1).map (fun r => r.text)
      = some max_iterations_text ∧
    (agentLoopGo false execOk auth0 false [toolResp] [] 0 1).map
        (fun r => r.persisted.getLast?)
      = some (some ⟨"assistant", MessageContent.Text max_iterations_text⟩) :=
  max_iterations_result false execOk auth0 false [toolResp] [] 0 1 (by decide) (by decide)

lemma strip_image_block_not_image (b : ContentBlock) :
    blockIsImage (strip_image_block b) = false := by
  cases b <;> rfl

lemma noImages_strip (messages : List Message) :
    noImagesB (strip_images_for_session messages) = true := by
  rw [noImagesB, List.all_eq_true]
  intro m hm
  rw [strip_images_for_session, List.mem_map] at hm
  obtain ⟨m0, _, rfl⟩ := hm
  cases hc : m0.content with
  | Text t => simp [hc]
  | Blocks bs =>
    simp only [hc]
    rw [List.all_eq_true]
    intro b hb
    rw [List.mem_map] at hb
    obtain ⟨b0, _, rfl⟩ := hb
    simp [strip_image_block_not_image]

lemma agentLoop_persisted_no_images (show_thinking : Bool)
    (exec : ToolAuthContext → String → Json → ToolExecResult) (auth : ToolAuthContext)
    (ev : Bool) :
    ∀ fuel responses messages iteration res,
      agentLoopGo show_thinking exec auth ev responses messages iteration fuel = some res →
      noImagesB res.persisted = true := by
  intro fuel
  induction fuel with
  | zero =>
    intro responses messages iteration res h
    rw [agentLoopGo_zero] at h
    obtain rfl := (Option.some.injEq _ _).mp h
    exact noImages_strip _
  | succ fuel ih =>
    intro responses messages iteration res h
    cases responses with
    | nil => exact absurd h (by simp [agentLoopGo])
    | cons r rest =>
      simp only [agentLoopGo] at h
      split at h
      · obtain rfl := (Option.some.injEq _ _).mp h.symm
        exact noImages_strip _
      · split at h
        · rw [Option.map_eq_some'] at h
          obtain ⟨res', hres', rfl⟩ := h
          exact ih rest _ (iteration + 1) res' hres'
        · split at h
          · obtain rfl := (Option.some.injEq _ _).mp h.symm
            exact noImages_strip _
          · obtain rfl := (Option.some.injEq _ _).mp h.symm
            exact noImages_strip _

/-- C4: image stripping replaces exactly the Image blocks by the fixed
placeholder text block, leaves non-Image blocks and Text-content messages
unchanged, its output never contains an Image block, and every message list
the agent loop persists to the session store has been image-stripped, so it
contains no Image block. -/
theorem persisted_sessions_have_no_images :
    (∀ b, strip_image_block b =
      (if blockIsImage b then ContentBlock.Text "[image was sent]" else b)) ∧
    (∀ role t, strip_images_for_session [⟨role, MessageContent.Text t⟩]
      = [⟨role, MessageContent.Text t⟩]) ∧
    (∀ role bs, strip_images_for_session [⟨role, MessageContent.Blocks bs⟩]
      = [⟨role, MessageContent.Blocks (bs.map strip_image_block)⟩]) ∧
    (∀ messages, noImagesB (strip_images_for_session messages) = true) ∧
    (∀ (show_thinking : Bool) exec auth (ev : Bool) responses messages iteration fuel res,
      agentLoopGo show_thinking exec auth ev responses messages iteration fuel = some res →
      noImagesB res.persisted = true) := by
  refine ⟨?_, fun role t => rfl, fun role bs => rfl, noImages_strip, ?_⟩
  · intro b
    cases b <;> rfl
  · intro show_thinking exec auth ev responses messages iteration fuel res h
    exact agentLoop_persisted_no_images show_thinking exec auth ev fuel responses messages
      iteration res h

/-- Witness for C4: a concrete end_turn run starting from a message list that
contains an Image block persists a list with no Image block. -/
theorem persisted_no_images_witness :
    noImagesB (LoopResult.mk "done"
      [⟨"user", MessageContent.Blocks [ContentBlock.Text "[image was sent]"]⟩,
       ⟨"assistant", MessageContent.Text "done"⟩] [] []).persisted = true :=
  persisted_sessions_have_no_images.2.2.2.2 true execOk auth0 false
    [⟨[ResponseContentBlock.Text "done"], some "end_turn"⟩] msgs_img 0 1
    (LoopResult.mk "done"
      [⟨"user", MessageContent.Blocks [ContentBlock.Text "[image was sent]"]⟩,
       ⟨"assistant", MessageContent.Text "done"⟩] [] [])
    (by decide)

/-- C6 counterexample: with show_thinking disabled and the same response
content, the end_turn branch think-filters the returned text but the
unknown-stop-reason branch does not, contradicting the claim that the two
branches apply the same think-filtering step. -/
theorem unknown_stop_not_think_filtered :
    (agentLoopGo false execOk auth0 false
        [⟨[ResponseContentBlock.Text "<think>x</think>hi"], some "stop_sequence"⟩] [] 0 1).map
        (fun r => r.text)
      = some "<think>x</think>hi" ∧
    (agentLoopGo false execOk auth0 false
        [⟨[ResponseContentBlock.Text "<think>x</think>hi"], some "end_turn"⟩] [] 0 1).map
        (fun r => r.text)
      = some "hi" ∧
    ("<think>x</think>hi" : String) ≠ "hi" := by
  refine ⟨by decide, by decide, by decide⟩

/-- C6 (amended): a response with a stop reason other than end_turn,
max_tokens and tool_use is terminal; the loop performs the same persistence
and image-stripping as end_turn, but returns the concatenated text without
think-filtering, emits FinalResponse only when that text is non-empty, and
returns the fixed "(no response)" marker when it is empty. -/
theorem unknown_stop_reason_terminal (show_thinking : Bool)
    (exec : ToolAuthContext → String → Json → ToolExecResult) (auth : ToolAuthContext)
    (ev : Bool) (response : LlmResponse) (rest : List LlmResponse)
    (messages : List Message) (iteration fuel : Nat)
    (h1 : response.stop_reason.getD "end_turn" ≠ "end_turn")
    (h2 : response.stop_reason.getD "end_turn" ≠ "max_tokens")
    (h3 : response.stop_reason.getD "end_turn" ≠ "tool_use") :
    agentLoopGo show_thinking exec auth ev (response :: rest) messages iteration (fuel + 1) =
      (if concatText response.content = "" then
        some { text := "(no response)",
               persisted := strip_images_for_session
                 (messages ++ [⟨"assistant", MessageContent.Text (concatText response.content)⟩]),
               trace := [],
               events := if ev then [AgentEvent.Iteration (iteration + 1)] else [] }
      else
        some { text := concatText response.content,
               persisted := strip_images_for_session
                 (messages ++ [⟨"assistant", MessageContent.Text (concatText response.content)⟩]),
               trace := [],
               events := (if ev then [AgentEvent.Iteration (iteration + 1)] else []) ++
                 (if ev then [AgentEvent.FinalResponse (concatText response.content)] else []) }) := by
  simp only [agentLoopGo]
  rw [if_neg (not_or.mpr ⟨h1, h2⟩), if_neg h3]

/-- Witness for C6 (amended): a concrete unknown stop reason. -/
theorem unknown_stop_reason_terminal_witness :
    agentLoopGo false execOk auth0 false
        [⟨[ResponseContentBlock.Text "ok"], some "refusal"⟩] [] 0 1
      = some ⟨"ok", [⟨"assistant", MessageContent.Text "ok"⟩], [], []⟩ := by
  have h := unknown_stop_reason_terminal false execOk auth0 false
    ⟨[ResponseContentBlock.Text "ok"], some "refusal"⟩ [] [] 0 0
    (by decide) (by decide) (by decide)
  exact h.trans (by decide)

/-- C5 counterexample: with no session, no override prompt and exactly one
stored message — a bot message — the produced list is empty (the
"nothing to process" short-circuit is taken), so the claim's precondition
"at least one stored message exists" does not suffice. -/
theorem resume_or_build_empty_with_stored_message :
    resume_or_build none [] [bot_stored] none none = [] := by decide

lemma catch_up_step_ne_nil (msgs : List Message) (sm : StoredMessage) :
    catch_up_step msgs sm ≠ [] := by
  unfold catch_up_step
  dsimp only
  split
  · split
    · split <;> simp
    · simp
  · simp

lemma catch_up_ne_nil (msgs : List Message) (ns : List StoredMessage) (h : msgs ≠ []) :
    catch_up_new_messages msgs ns ≠ [] := by
  induction ns generalizing msgs with
  | nil => exact h
  | cons n ns ih => exact ih (catch_up_step msgs n) (catch_up_step_ne_nil msgs n)

lemma apply_override_ne_nil (msgs : List Message) (o : Option String) (h : msgs ≠ []) :
    apply_override msgs o ≠ [] := by
  cases o with
  | none => exact h
  | some p => simp [apply_override]

lemma apply_image_ne_nil (msgs : List Message) (img : Option (String × String)) (h : msgs ≠ []) :
    apply_image msgs img ≠ [] := by
  cases img with
  | none => exact h
  | some p =>
    obtain ⟨b, m⟩ := p
    unfold apply_image
    dsimp only
    cases hl : msgs.getLast? with
    | none => exact h
    | some last =>
      dsimp only
      by_cases hr : last.role = "user"
      · rw [if_pos hr]
        simp
      · rw [if_neg hr]
        exact h

lemma user_mem_push_history (acc : List Message) (m : StoredMessage)
    (h : m.is_from_bot = false) : "user" ∈ roles (push_history_message acc m) := by
  have hrole : roleOfStored m = "user" := by simp [roleOfStored, h]
  unfold push_history_message
  cases hacc : acc.getLast? with
  | none => simp [roles, hrole]
  | some last =>
    dsimp only
    by_cases hlr : last.role = roleOfStored m
    · rw [if_pos hlr]
      have hmem : "user" ∈ roles acc := by
        rw [roles, List.mem_map]
        exact ⟨last, List.mem_of_getLast?_eq_some hacc, by rw [hlr, hrole]⟩
      cases hc : last.content with
      | Text t =>
        dsimp only
        rw [roles_dropLast_append_last hacc
          ⟨last.role, MessageContent.Text (t ++ "\n" ++ storedContent m)⟩ rfl]
        exact hmem
      | Blocks bs => exact hmem
    · rw [if_neg hlr]
      rw [roles_append]
      exact List.mem_append_right _ (by simp [roles, hrole])

lemma user_mem_push_history_pres (acc : List Message) (m : StoredMessage)
    (h : "user" ∈ roles acc) : "user" ∈ roles (push_history_message acc m) := by
  unfold push_history_message
  cases hacc : acc.getLast? with
  | none =>
    have : acc = [] := List.getLast?_eq_none_iff.mp hacc
    subst this
    simp [roles] at h
  | some last =>
    dsimp only
    by_cases hlr : last.role = roleOfStored m
    · rw [if_pos hlr]
      cases hc : last.content with
      | Text t =>
        dsimp only
        rw [roles_dropLast_append_last hacc
          ⟨last.role, MessageContent.Text (t ++ "\n" ++ storedContent m)⟩ rfl]
        exact h
      | Blocks bs => exact h
    · rw [if_neg hlr]
      rw [roles_append]
      exact List.mem_append_left _ h

lemma user_mem_fold_pres (history : List StoredMessage) (acc : List Message)
    (h : "user" ∈ roles acc) :
    "user" ∈ roles (history.foldl push_history_message acc) := by
  induction history generalizing acc with
  | nil => exact h
  | cons m rest ih => exact ih _ (user_mem_push_history_pres acc m h)

lemma user_mem_fold (history : List StoredMessage) (acc : List Message)
    (h : history.any (fun m => !m.is_from_bot) = true) :
    "user" ∈ roles (history.foldl push_history_message acc) := by
  induction history generalizing acc with
  | nil => simp at h
  | cons m rest ih =>
    rw [List.any_cons] at h
    by_cases hm : m.is_from_bot = false
    · exact user_mem_fold_pres rest _ (user_mem_push_history acc m hm)
    · have hm' : m.is_from_bot = true := by
        cases hb : m.is_from_bot
        · exact absurd hb hm
        · rfl
      simp [hm'] at h
      exact ih _ (by simpa using h)

lemma user_mem_pop_trailing (l : List Message) (h : "user" ∈ roles l) :
    "user" ∈ roles (pop_trailing_assistant l) := by
  unfold pop_trailing_assistant
  cases hl : l.getLast? with
  | none => exact h
  | some last =>
    dsimp only
    by_cases hr : last.role = "assistant"
    · rw [if_pos hr]
      have hrep : roles l.dropLast ++ ["assistant"] = roles l := by
        have := roles_dropLast_append_last hl (⟨"assistant", last.content⟩ : Message)
          (by simp [hr])
        simpa [roles_append, roles] using this
      rw [← hrep] at h
      rcases List.mem_append.mp h with h' | h'
      · exact h'
      · simp at h'
    · rw [if_neg hr]
      exact h

lemma dropWhile_ne_nil_of_mem {α : Type} (p : α → Bool) (l : List α) (x : α)
    (hmem : x ∈ l) (hp : p x = false) : l.dropWhile p ≠ [] := by
  induction l with
  | nil => simp at hmem
  | cons a t ih =>
    by_cases hpa : p a = true
    · rw [List.dropWhile_cons_of_pos hpa]
      rcases List.mem_cons.mp hmem with rfl | hmem'
      · rw [hp] at hpa; exact absurd hpa (by simp)
      · exact ih hmem'
    · rw [List.dropWhile_cons_of_neg hpa]
      simp

lemma history_with_user_ne_nil (history : List StoredMessage)
    (h : history.any (fun m => !m.is_from_bot) = true) :
    history_to_claude_messages history ≠ [] := by
  unfold history_to_claude_messages drop_leading_assistant
  have hu : "user" ∈ roles (pop_trailing_assistant (history.foldl push_history_message [])) :=
    user_mem_pop_trailing _ (user_mem_fold history [] h)
  rw [roles, List.mem_map] at hu
  obtain ⟨msg, hmem, hrole⟩ := hu
  exact dropWhile_ne_nil_of_mem _ _ msg hmem (by simp [hrole])

/-- C5 (amended): after `resume_or_build` the produced list is non-empty
whenever an override prompt was supplied, or the stored session is present
and non-empty, or the fetched history window contains at least one non-bot
(user) stored message. (A history consisting only of bot messages can
legitimately produce the empty list: reconstruction drops the trailing and
leading assistant messages.) -/
theorem resume_or_build_nonempty (session : Option (List Message))
    (new_msgs history : List StoredMessage) (override_prompt : Option String)
    (image_data : Option (String × String))
    (h : override_prompt.isSome = true ∨ (∃ l, session = some l ∧ l ≠ []) ∨
      history.any (fun m => !m.is_from_bot) = true) :
    resume_or_build session new_msgs history override_prompt image_data ≠ [] := by
  unfold resume_or_build
  apply apply_image_ne_nil
  rcases h with h | ⟨l, rfl, hl⟩ | h
  · cases override_prompt with
    | none => simp at h
    | some p => simp [apply_override]
  · apply apply_override_ne_nil
    dsimp only
    rw [if_neg (by simpa [List.isEmpty_iff] using hl)]
    exact catch_up_ne_nil l new_msgs hl
  · apply apply_override_ne_nil
    cases session with
    | none => exact history_with_user_ne_nil history h
    | some l =>
      dsimp only
      by_cases hl : l.isEmpty = true
      · rw [if_pos hl]
        exact history_with_user_ne_nil history h
      · rw [if_neg hl]
        exact catch_up_ne_nil l new_msgs (by simpa [List.isEmpty_iff] using hl)

/-- Witness for C5 (amended): one stored user message and no session. -/
theorem resume_or_build_nonempty_witness :
    resume_or_build none [] [alice_stored] none none ≠ [] :=
  resume_or_build_nonempty none [] [alice_stored] none none (Or.inr (Or.inr (by decide)))

/-- C8 counterexample: when the session's last message has role user but
Blocks content, the catch-up step appends a new user message instead of
newline-appending, producing two adjacent user-role messages. -/
theorem catch_up_adjacent_users_counterexample :
    ((catch_up_new_messages [⟨"user", MessageContent.Blocks []⟩] [alice_stored]).map
        (fun m => m.role) = ["user", "user"]) ∧
    (([⟨"user", MessageContent.Blocks []⟩] : List Message).getLast?.map (fun m => m.role)
      = some "user") ∧
    (catch_up_new_messages [⟨"user", MessageContent.Blocks []⟩] [alice_stored]).length = 2 := by
  refine ⟨by decide, by decide, by decide⟩

lemma lastIsUserText_concat (l : List Message) (c : String) :
    lastIsUserText (l ++ [⟨"user", MessageContent.Text c⟩]) = true := by
  unfold lastIsUserText
  rw [List.getLast?_concat]
  rfl

lemma catch_up_step_merge (msgs : List Message) (sm : StoredMessage)
    (h : lastIsUserText msgs = true) :
    roles (catch_up_step msgs sm) = roles msgs ∧
    lastIsUserText (catch_up_step msgs sm) = true := by
  unfold lastIsUserText at h
  cases hl : msgs.getLast? with
  | none => rw [hl] at h; simp at h
  | some last =>
    rw [hl] at h
    dsimp only at h
    have hrole : last.role = "user" := by
      have := (Bool.and_eq_true _ _).mp h
      simpa using this.1
    cases hc : last.content with
    | Blocks bs =>
      rw [hc] at h
      simp at h
    | Text t =>
      have hstep : catch_up_step msgs sm
          = msgs.dropLast ++ [⟨last.role, MessageContent.Text
              (t ++ "\n" ++ format_user_message sm.sender_name sm.content)⟩] := by
        unfold catch_up_step
        dsimp only
        rw [hl]
        dsimp only
        rw [if_pos hrole, hc]
      rw [hstep]
      constructor
      · exact roles_dropLast_append_last hl
          ⟨last.role, MessageContent.Text
            (t ++ "\n" ++ format_user_message sm.sender_name sm.content)⟩ rfl
      · rw [hrole]
        exact lastIsUserText_concat _ _

lemma catch_up_roles_of_lastUserText (ns : List StoredMessage) (msgs : List Message)
    (h : lastIsUserText msgs = true) :
    roles (catch_up_new_messages msgs ns) = roles msgs ∧
    lastIsUserText (catch_up_new_messages msgs ns) = true := by
  induction ns generalizing msgs with
  | nil => exact ⟨rfl, h⟩
  | cons n ns ih =>
    obtain ⟨h1, h2⟩ := catch_up_step_merge msgs n h
    obtain ⟨h3, h4⟩ := ih _ h2
    exact ⟨h3.trans h1, h4⟩

lemma adjacent_user_pairs_concat (rs : List String) (y : String) :
    adjacent_user_pairs (rs ++ [y]) =
      adjacent_user_pairs rs +
        (match rs.getLast? with
         | some x => if x = "user" ∧ y = "user" then 1 else 0
         | none => 0) := by
  induction rs with
  | nil => simp [adjacent_user_pairs]
  | cons a tail ih =>
    cases tail with
    | nil => simp [adjacent_user_pairs]
    | cons b t =>
      have e1 : (a :: b :: t) ++ [y] = a :: ((b :: t) ++ [y]) := rfl
      rw [e1]
      have e2 : adjacent_user_pairs (a :: ((b :: t) ++ [y]))
          = (if a = "user" ∧ b = "user" then 1 else 0)
            + adjacent_user_pairs ((b :: t) ++ [y]) := rfl
      rw [e2, ih]
      have e4 : adjacent_user_pairs (a :: b :: t)
          = (if a = "user" ∧ b = "user" then 1 else 0) + adjacent_user_pairs (b :: t) := rfl
      rw [e4]
      have e5 : (a :: b :: t).getLast? = (b :: t).getLast? := List.getLast?_cons_cons
      rw [e5, Nat.add_assoc]

/-- C8 (amended): a new stored message is newline-appended into the session's
last message only when that message has role user with Text content;
otherwise (including a last user message with Blocks content) it is appended
as a new user message. Provided the session's last message is not a user
message with Blocks content, the catch-up step never creates a new adjacent
pair of user-role messages. -/
theorem catch_up_no_new_adjacent_users (session : List Message)
    (new_msgs : List StoredMessage) (h : lastIsUserBlocks session = false) :
    adjUserPairs (catch_up_new_messages session new_msgs) = adjUserPairs session := by
  cases new_msgs with
  | nil => rfl
  | cons n ns =>
    have hstep : catch_up_new_messages session (n :: ns)
        = catch_up_new_messages (catch_up_step session n) ns := rfl
    rw [hstep]
    cases hl : session.getLast? with
    | none =>
      have hnil : session = [] := List.getLast?_eq_none_iff.mp hl
      subst hnil
      have hstep0 : catch_up_step [] n
          = [⟨"user", MessageContent.Text (format_user_message n.sender_name n.content)⟩] := rfl
      rw [hstep0]
      obtain ⟨hroles, _⟩ := catch_up_roles_of_lastUserText ns
        [⟨"user", MessageContent.Text (format_user_message n.sender_name n.content)⟩] rfl
      unfold adjUserPairs
      rw [hroles]
      rfl
    | some last =>
      by_cases hu : last.role = "user"
      · cases hc : last.content with
        | Blocks bs =>
          exfalso
          unfold lastIsUserBlocks at h
          rw [hl] at h
          dsimp only at h
          rw [hc] at h
          simp [hu] at h
        | Text t =>
          obtain ⟨h1, h2⟩ := catch_up_step_merge session n (by
            unfold lastIsUserText
            rw [hl]
            dsimp only
            rw [hc]
            simp [hu])
          obtain ⟨hroles, _⟩ := catch_up_roles_of_lastUserText ns _ h2
          unfold adjUserPairs
          rw [hroles, h1]
      · have hstep2 : catch_up_step session n
            = session ++ [⟨"user", MessageContent.Text (format_user_message n.sender_name n.content)⟩] := by
          unfold catch_up_step
          dsimp only
          rw [hl]
          dsimp only
          rw [if_neg hu]
        rw [hstep2]
        obtain ⟨hroles, _⟩ := catch_up_roles_of_lastUserText ns _
          (lastIsUserText_concat session (format_user_message n.sender_name n.content))
        unfold adjUserPairs
        rw [hroles, roles_append]
        have : roles [(⟨"user", MessageContent.Text (format_user_message n.sender_name n.content)⟩ : Message)] = ["user"] := rfl
        rw [this, adjacent_user_pairs_concat, getLast?_roles, hl]
        simp [hu]

/-- Witness for C8 (amended): catch-up into a session ending in an assistant
message creates no adjacent user pair. -/
theorem catch_up_no_new_adjacent_users_witness :
    adjUserPairs (catch_up_new_messages [⟨"assistant", MessageContent.Text "x"⟩] [alice_stored])
      = adjUserPairs [⟨"assistant", MessageContent.Text "x"⟩] :=
  catch_up_no_new_adjacent_users [⟨"assistant", MessageContent.Text "x"⟩] [alice_stored] (by decide)

lemma byteLen_append (xs ys : List Char) : byteLen (xs ++ ys) = byteLen xs + byteLen ys := by
  simp [byteLen]

lemma byteLen_cons (c : Char) (cs : List Char) : byteLen (c :: cs) = c.utf8Size + byteLen cs := by
  simp [byteLen]

lemma byteLen_replicate_a (k : Nat) : byteLen (List.replicate k 'a') = k := by
  induction k with
  | zero => rfl
  | succ k ih =>
    rw [List.replicate_succ, byteLen_cons, ih,
      show Char.utf8Size ('a') = 1 from rfl]
    omega

lemma rustTruncate_append (xs ys : List Char) (n : Nat) :
    rustTruncate (xs ++ ys) (byteLen xs + n) = (rustTruncate ys n).map (xs ++ ·) := by
  induction xs generalizing n with
  | nil =>
    rw [show byteLen [] = 0 from rfl, Nat.zero_add, List.nil_append]
    cases rustTruncate ys n <;> simp
  | cons c xs ih =>
    rw [List.cons_append, byteLen_cons]
    have hpos : 0 < c.utf8Size := Char.utf8Size_pos c
    have hne : c.utf8Size + byteLen xs + n ≠ 0 := by omega
    have hle : c.utf8Size ≤ c.utf8Size + byteLen xs + n := by omega
    rw [show rustTruncate (c :: (xs ++ ys)) (c.utf8Size + byteLen xs + n)
        = if c.utf8Size + byteLen xs + n = 0 then some []
          else if c.utf8Size ≤ c.utf8Size + byteLen xs + n then
            (rustTruncate (xs ++ ys) (c.utf8Size + byteLen xs + n - c.utf8Size)).map (c :: ·)
          else none from rfl]
    rw [if_neg hne, if_pos hle]
    rw [show c.utf8Size + byteLen xs + n - c.utf8Size = byteLen xs + n by omega]
    rw [ih]
    cases rustTruncate ys n <;> simp

lemma render_transcript_big :
    render_transcript [big_msg]
      = ("[user]: ".data ++ List.replicate 19990 'a') ++ ('€' :: "\n\n".data) := by
  unfold render_transcript big_msg
  rw [List.foldl_cons, List.foldl_nil, List.nil_append]
  rw [show message_to_text ⟨"user", MessageContent.Text big_text⟩ = big_text from rfl]
  rw [show big_text.data = List.replicate 19990 'a' ++ ['€'] from rfl]
  rw [show (("[" : String).data ++ ("user" : String).data ++ ("]: " : String).data
      : List Char) = "[user]: ".data from by decide]
  simp only [List.append_assoc, List.singleton_append]

lemma truncate_transcript_big :
    truncate_transcript (("[user]: ".data ++ List.replicate 19990 'a') ++ ('€' :: "\n\n".data))
      = none := by
  have h1 : byteLen ("[user]: ".data ++ List.replicate 19990 'a') = 19998 := by
    rw [byteLen_append, byteLen_replicate_a,
      show byteLen ("[user]: ".data) = 8 from by decide]
  have h2 : byteLen (("[user]: ".data ++ List.replicate 19990 'a') ++ ('€' :: "\n\n".data))
      = 20003 := by
    rw [byteLen_append, h1, show byteLen ('€' :: "\n\n".data) = 5 from by decide]
  unfold truncate_transcript
  rw [if_pos (by rw [h2]; omega)]
  rw [show (20000 : Nat) = byteLen ("[user]: ".data ++ List.replicate 19990 'a') + 2 from by
    rw [h1]]
  rw [rustTruncate_append]
  rw [show rustTruncate ('€' :: "\n\n".data) 2 = none from by decide]
  rfl

/-- C7 (code bug): rendering the old prefix and hard-truncating it at byte
20,000 uses `String::truncate`, which panics when byte 20,000 falls inside a
multi-byte character — here on a concrete two-message list compacted with
keep_recent = 1 — contradicting the documented requirement that the cut
always lands on a valid character boundary and never panics. -/
theorem compaction_truncation_panics :
    compact_messages (fun _ => none) [big_msg, tail_msg] 1 = none := by
  unfold compact_messages
  rw [if_neg (by decide)]
  rw [show List.take ([big_msg, tail_msg].length - 1) [big_msg, tail_msg] = [big_msg] from rfl]
  rw [render_transcript_big, truncate_transcript_big]

end Microclaw

